import Mathlib

/-!
Shallow embedding of the `vegeta-sine` load-testing tool (Go) in Lean 4,
verifying the step-function pacer, its schedule parsing, and the sine
parameter validation against the repository's specification.

Modelling conventions:
* `time.Duration` (int64 nanoseconds) is modelled as `ℤ`; `Rate` (`uint`)
  as `ℕ`.
* `float64` arithmetic is modelled by exact rational arithmetic (`ℚ`);
  the observable integer conversions of the source — `math.Round`, the
  `float64 → uint64` conversion, and the `float64 → time.Duration`
  conversion — are modelled explicitly by `goRound`, `goUint64` and
  `goTrunc`. All concrete values appearing in theorems below are exactly
  representable in `float64`, so the idealisation is faithful there.
* Fallible behaviour (index out of range, float division by zero whose
  IEEE infinity a rational model cannot represent, `log.Fatal`) is made
  explicit with sum types.
-/

set_option autoImplicit false

namespace VegetaSine

/-- One second in Go `time.Duration` units (nanoseconds). -/
def second : ℤ := 1000000000

/-- `RateDescriptor` describes a rate in requests per second and duration
(`Rate uint`, `Duration time.Duration`). -/
structure RateDescriptor where
  Rate : ℕ
  Duration : ℤ
deriving DecidableEq, Repr

/-- `AttackDescriptor` describes an attack by name and series of rates. -/
structure AttackDescriptor where
  Name : String
  Rates : List RateDescriptor
deriving DecidableEq, Repr

/-- `func (attack AttackDescriptor) Duration() time.Duration`: starts the
accumulator at `time.Second` and adds every rate's duration. -/
def AttackDescriptor.Duration (attack : AttackDescriptor) : ℤ :=
  attack.Rates.foldl (fun d r => d + r.Duration) second

/-- `StepFunctionPacer` paces an attack with specific request rates for
specific durations. -/
structure StepFunctionPacer where
  Attack : AttackDescriptor
deriving DecidableEq, Repr

/-- `Duration.Seconds()`: the duration as a (float64, here exact rational)
number of seconds. -/
def seconds (d : ℤ) : ℚ := (d : ℚ) / (second : ℚ)

/-- `func (pacer StepFunctionPacer) hitsPerNs(rate RateDescriptor) float64`:
`float64(rate.Rate) / float64(time.Second)`. -/
def hitsPerNs (rate : RateDescriptor) : ℚ := (rate.Rate : ℚ) / (second : ℚ)

/-- The loop body of `func (pacer StepFunctionPacer) hits(duration
time.Duration) float64`: fold over the rates, adding
`float64(rate.Rate) * rate.Duration.Seconds()` for each rate (the whole
segment, never a partial one) and breaking as soon as
`duration <= aggregateDuration`, where `aggregateDuration` starts at
`time.Second` and accumulates the segment durations. -/
def hitsFrom (duration : ℤ) : List RateDescriptor → ℤ → ℚ
  | [], _ => 0
  | r :: rs, agg =>
    (r.Rate : ℚ) * seconds r.Duration +
      (if duration ≤ agg + r.Duration then 0 else hitsFrom duration rs (agg + r.Duration))

/-- `pacer.hits(duration)`: cumulative expected hits at `duration`. -/
def StepFunctionPacer.hits (pacer : StepFunctionPacer) (duration : ℤ) : ℚ :=
  hitsFrom duration pacer.Attack.Rates second

/-- The active-rate search loop of `Pace`: walk the rates accumulating
`aggregateDuration` (starting at `time.Second`) and stop at the first rate
with `elapsed <= aggregateDuration`; `none` when the loop finishes without
breaking. -/
def findActive (elapsed : ℤ) : List RateDescriptor → ℤ → Option RateDescriptor
  | [], _ => none
  | r :: rs, agg =>
    if elapsed ≤ agg + r.Duration then some r
    else findActive elapsed rs (agg + r.Duration)

/-- The zero value `RateDescriptor{}` that `Pace` compares against. -/
def zeroRate : RateDescriptor := ⟨0, 0⟩

/-- Active-rate selection of `Pace` including the fallback: when the loop
left `activeRate` equal to the zero value (no break, or a break on a
zero-valued segment), `Pace` indexes
`pacer.Attack.Rates[len(pacer.Attack.Rates)-1]`; on an empty rate list that
index is out of range, modelled by `none`. -/
def activeRateOf (rates : List RateDescriptor) (elapsed : ℤ) : Option RateDescriptor :=
  let a := (findActive elapsed rates second).getD zeroRate
  if a = zeroRate then rates.getLast? else some a

/-- `math.Round`: round to nearest integer, halves away from zero. -/
def goRound (q : ℚ) : ℤ := if 0 ≤ q then ⌊q + 1 / 2⌋ else -⌊-q + 1 / 2⌋

/-- Go conversion of a `float64` to an integer type: truncation toward
zero (values out of range are implementation-specific and outside this
model). -/
def goTrunc (q : ℚ) : ℤ := if 0 ≤ q then ⌊q⌋ else -⌊-q⌋

/-- Go conversion `uint64(f)` of a non-negative `float64`. -/
def goUint64 (q : ℚ) : ℕ := (goTrunc q).toNat

/-- Outcome of one `Pace` call.  `ok wait stop` is a normal return;
`indexOutOfRange` marks the panic of indexing an empty `Rates` slice;
`divByZero` marks the float division `1 / 0.0` reached for a zero-rate
active segment (IEEE `+Inf`, unrepresentable in the rational model; the
subsequent `time.Duration` conversion of it is implementation-specific). -/
inductive PaceResult where
  | ok (wait : ℤ) (stop : Bool)
  | indexOutOfRange
  | divByZero
deriving DecidableEq, Repr

/-- `func (pacer StepFunctionPacer) Pace(elapsed time.Duration, hits
uint64) (time.Duration, bool)`: select the active rate (with last-rate
fallback), compute `expectedHits = pacer.hits(elapsed)`; if
`hits < uint64(expectedHits)` return `(0, false)`; otherwise return
`(time.Duration(math.Round(1/pacer.hitsPerNs(activeRate)) *
(float64(hits+1) - expectedHits)), false)`.  The reporting side effects
(lines 102–119 of the source) do not affect the returned value and are not
modelled. -/
def StepFunctionPacer.pace (pacer : StepFunctionPacer) (elapsed : ℤ) (hitsSent : ℕ) :
    PaceResult :=
  match activeRateOf pacer.Attack.Rates elapsed with
  | none => .indexOutOfRange
  | some activeRate =>
    if hitsSent < goUint64 (pacer.hits elapsed) then .ok 0 false
    else if activeRate.Rate = 0 then .divByZero
    else
      .ok (goTrunc ((goRound (1 / hitsPerNs activeRate) : ℚ) *
        ((hitsSent : ℚ) + 1 - pacer.hits elapsed))) false

/-- Hits contributed by one whole segment:
`float64(rate.Rate) * rate.Duration.Seconds()`. -/
def segHits (r : RateDescriptor) : ℚ := (r.Rate : ℚ) * seconds r.Duration

/-- Number of segments whose hits `pacer.hits` accumulates when started
with aggregate `agg`: every segment up to and including the first one
whose aggregate boundary reaches `duration`, or all of them. -/
def cutAt (duration : ℤ) : List RateDescriptor → ℤ → ℕ
  | [], _ => 0
  | r :: rs, agg =>
    if duration ≤ agg + r.Duration then 1 else 1 + cutAt duration rs (agg + r.Duration)

/-- Aggregate boundary after the first `i` segments, offset by the
one-second initial value of `aggregateDuration`. -/
def boundary (rates : List RateDescriptor) (i : ℕ) : ℤ :=
  second + ((rates.take i).map RateDescriptor.Duration).sum

/-- The example schedule `[{10 req/s, 10s}, {20 req/s, 5s}]` of the
specification's step tests. -/
def examplePacer : StepFunctionPacer :=
  ⟨⟨"example", [⟨10, 10 * second⟩, ⟨20, 5 * second⟩]⟩⟩

/-- A one-segment schedule whose cumulative hit count is fractional
(`1 req/s` for half a second gives `0.5` expected hits). -/
def halfHitPacer : StepFunctionPacer := ⟨⟨"half", [⟨1, 500000000⟩]⟩⟩

/-- A one-segment schedule at `3 req/s` for half a second; `1e9/3` rounds
to an odd nanosecond spacing, exposing the final truncation. -/
def thirdPacer : StepFunctionPacer := ⟨⟨"third", [⟨3, 500000000⟩]⟩⟩

/-- A one-segment schedule whose only segment is a zero-rate pause. -/
def pausePacer : StepFunctionPacer := ⟨⟨"pause", [⟨0, 5 * second⟩]⟩⟩

/-- A pacer with an empty rate list. -/
def emptyPacer : StepFunctionPacer := ⟨⟨"empty", []⟩⟩

/-! ### Schedule-string parsing (`parsePacingStr`)

The tokenisation uses the Go standard library (`strings.SplitN`,
`strings.TrimSpace`, `time.ParseDuration`, `strconv.Atoi`); those library
functions are embedded below from their documented behaviour, over
`List Char` so that everything reduces structurally. -/

/-- `strings.Split(s, sep)` for a one-character separator: `[""]` on the
empty string, no empty-group collapsing. -/
def splitOnChar (sep : Char) : List Char → List (List Char)
  | [] => [[]]
  | c :: rest =>
    if c = sep then [] :: splitOnChar sep rest
    else
      match splitOnChar sep rest with
      | [] => [[c]]
      | g :: gs => (c :: g) :: gs

/-- `strings.SplitN(s, sep, 2)` for a one-character separator: at most two
groups, the second keeping any later separators. -/
def splitN2 (sep : Char) : List Char → List (List Char)
  | [] => [[]]
  | c :: rest =>
    if c = sep then [[], rest]
    else
      match splitN2 sep rest with
      | [] => [[c]]
      | g :: gs => (c :: g) :: gs

/-- `strings.TrimSpace`: drop leading and trailing whitespace. -/
def trimSpace (cs : List Char) : List Char :=
  ((cs.dropWhile Char.isWhitespace).reverse.dropWhile Char.isWhitespace).reverse

/-- Numeric value of a run of decimal digits. -/
def digitsVal (cs : List Char) : ℕ :=
  cs.foldl (fun n c => 10 * n + (c.toNat - 48)) 0

/-- `strconv.Atoi`: optional sign, one or more decimal digits, value
within the 64-bit `int` range; `none` models a non-nil `error`. -/
def atoi (cs : List Char) : Option ℤ :=
  let p : ℤ × List Char :=
    match cs with
    | '-' :: r => (-1, r)
    | '+' :: r => (1, r)
    | r => (1, r)
  if p.2.isEmpty || !p.2.all Char.isDigit then none
  else
    let v : ℤ := p.1 * (digitsVal p.2 : ℤ)
    if v < -(2 ^ 63) || (2 ^ 63 - 1 : ℤ) < v then none else some v

/-- Nanoseconds per duration unit accepted by `time.ParseDuration`. -/
def unitNs : List Char → Option ℤ
  | ['n', 's'] => some 1
  | ['u', 's'] => some 1000
  | ['µ', 's'] => some 1000
  | ['μ', 's'] => some 1000
  | ['m', 's'] => some 1000000
  | ['s'] => some 1000000000
  | ['m'] => some 60000000000
  | ['h'] => some 3600000000000
  | _ => none

/-- The component loop of `time.ParseDuration`: each component is an
integer part, an optional `.`-separated fraction and a unit; the
fractional contribution is truncated to whole nanoseconds.  The fuel is
the length of the remaining input (every component consumes at least one
character).  Range checks happen at the end, in `parseDuration`. -/
def parseDurAux : ℕ → List Char → Option ℤ
  | _, [] => some 0
  | 0, _ :: _ => none
  | fuel + 1, cs =>
    let intDigits := cs.takeWhile Char.isDigit
    let cs1 := cs.dropWhile Char.isDigit
    let q : List Char × List Char :=
      match cs1 with
      | '.' :: r => (r.takeWhile Char.isDigit, r.dropWhile Char.isDigit)
      | _ => ([], cs1)
    if intDigits.isEmpty && q.1.isEmpty then none
    else
      let unitChars := q.2.takeWhile fun c => !(c.isDigit || c = '.')
      let cs3 := q.2.dropWhile fun c => !(c.isDigit || c = '.')
      match unitNs unitChars with
      | none => none
      | some u =>
        let comp : ℤ := (digitsVal intDigits : ℤ) * u +
          (digitsVal q.1 : ℤ) * u / ((10 : ℤ) ^ q.1.length)
      match parseDurAux fuel cs3 with
        | none => none
        | some rest => some (comp + rest)

/-- `time.ParseDuration`: optional sign, the special case `"0"`, one or
more components, 64-bit range check; `none` models a non-nil `error`. -/
def parseDuration (cs : List Char) : Option ℤ :=
  let p : Bool × List Char :=
    match cs with
    | '-' :: r => (true, r)
    | '+' :: r => (false, r)
    | r => (false, r)
  if p.2 = ['0'] then some 0
  else if p.2.isEmpty then none
  else
    match parseDurAux p.2.length p.2 with
    | none => none
    | some v =>
      let signed := if p.1 then -v else v
      if signed < -(2 ^ 63) || (2 ^ 63 - 1 : ℤ) < signed then none else some signed

/-- Go conversion `uint(x)` of a (possibly negative) `int`: reduction
modulo `2^64`. -/
def goUintOfInt (x : ℤ) : ℕ := (x % (2 : ℤ) ^ 64).toNat

/-- Outcome of `parsePacingStr`.  `fatal` models the `log.Fatal` calls
(which print `invalid pacing descriptor %q` quoting the whole pacing
string and terminate the process); `panicIndex` models the runtime
index-out-of-range panic of evaluating `components[1]` when the `@` split
produced a single component. -/
inductive ParseOutcome where
  | ok (rates : List RateDescriptor)
  | fatal (pacing : String)
  | panicIndex
deriving DecidableEq, Repr

/-- The token loop of `func (pacer StepFunctionPacer) parsePacingStr
(pacing string) []RateDescriptor`: split each token at the first `@`;
`components[0] == ""` is checked first (short-circuit `||`), then
`components[1]` is read — a panic when there was no `@`; then the
trimmed duration and rate are parsed, each failure being a `log.Fatal`;
the rate is converted by `uint(rate)`. -/
def parsePacingLoop (pacing : String) : List (List Char) → ParseOutcome
  | [] => .ok []
  | d :: ds =>
    match splitN2 '@' d with
    | [] => .panicIndex
    | [c0] => if c0.isEmpty then .fatal pacing else .panicIndex
    | c0 :: c1 :: _ =>
      if c0.isEmpty || c1.isEmpty then .fatal pacing
      else
        match parseDuration (trimSpace c0) with
        | none => .fatal pacing
        | some dur =>
          match atoi (trimSpace c1) with
          | none => .fatal pacing
          | some rate =>
            match parsePacingLoop pacing ds with
            | .ok rest => .ok (⟨goUintOfInt rate, dur⟩ :: rest)
            | e => e

/-- `parsePacingStr` parses a string of the form
`"duration1@rate1,duration2@rate2"` into rate descriptors, splitting on
`,` first. -/
def parsePacingStr (pacing : String) : ParseOutcome :=
  parsePacingLoop pacing (splitOnChar ',' pacing.data)

/-! ### Sine pacer configuration validation (from the sine `main.go`) -/

namespace Sine

/-- `vegeta.ConstantPacer` (also `vegeta.Rate`): `Freq int`,
`Per time.Duration`. -/
structure ConstantPacer where
  Freq : ℤ
  Per : ℤ
deriving DecidableEq, Repr

/-- `func hitsPerNs(cp vegeta.ConstantPacer) float64`:
`float64(cp.Freq) / float64(cp.Per)`. -/
def hitsPerNs (cp : ConstantPacer) : ℚ := (cp.Freq : ℚ) / (cp.Per : ℚ)

/-- `vegeta.SinePacer`, restricted to the fields `invalid` reads. -/
structure SinePacer where
  Period : ℤ
  Mean : ConstantPacer
  Amp : ConstantPacer
  StartAt : ℚ
deriving DecidableEq, Repr

/-- `func invalid(sp vegeta.SinePacer) bool`: `sp.Period <= 0 ||
hitsPerNs(sp.Mean) <= 0 || hitsPerNs(sp.Amp) >= hitsPerNs(sp.Mean)`. -/
def invalid (sp : SinePacer) : Bool :=
  decide (sp.Period ≤ 0) || decide (hitsPerNs sp.Mean ≤ 0) ||
    decide (hitsPerNs sp.Amp ≥ hitsPerNs sp.Mean)

/-- The `SinePacer` literal built in `main`: `Mean` and `Amp` both have
`Per: time.Second`, `Freq` from the `-mean` and `-amplitude` flags,
`Period` from `-period`. -/
def mkSinePacer (period mean amplitude : ℤ) (startAt : ℚ) : SinePacer :=
  ⟨period, ⟨mean, second⟩, ⟨amplitude, second⟩, startAt⟩

end Sine

end VegetaSine

namespace VegetaSine

/-! ## Helper lemmas -/

theorem hitsFrom_eq_sum_take (duration : ℤ) :
    ∀ (rates : List RateDescriptor) (agg : ℤ),
      hitsFrom duration rates agg =
        ((rates.take (cutAt duration rates agg)).map segHits).sum := by
  intro rates
  induction rates with
  | nil => intro agg; simp [hitsFrom, cutAt]
  | cons r rs ih =>
    intro agg
    by_cases h : duration ≤ agg + r.Duration
    · simp [hitsFrom, cutAt, h, segHits]
    · simp only [hitsFrom, cutAt, if_neg h, ih (agg + r.Duration),
        Nat.add_comm 1 (cutAt duration rs (agg + r.Duration)), List.take_succ_cons,
        List.map_cons, List.sum_cons, segHits]

theorem foldl_add_duration (l : List RateDescriptor) :
    ∀ s : ℤ, l.foldl (fun d r => d + r.Duration) s = s + (l.map RateDescriptor.Duration).sum := by
  induction l with
  | nil => intro s; simp
  | cons r rs ih => intro s; simp [List.foldl_cons, ih, add_assoc]

theorem findActive_eq_none (e : ℤ) :
    ∀ (rates : List RateDescriptor) (agg : ℤ),
      (∀ r ∈ rates, 0 ≤ r.Duration) →
      agg + (rates.map RateDescriptor.Duration).sum < e →
      findActive e rates agg = none := by
  intro rates
  induction rates with
  | nil => intro agg _ _; rfl
  | cons r rs ih =>
    intro agg hd hlt
    have hrest : (0 : ℤ) ≤ (rs.map RateDescriptor.Duration).sum := by
      apply List.sum_nonneg
      intro x hx
      obtain ⟨y, hy, rfl⟩ := List.mem_map.mp hx
      exact hd y (List.mem_cons_of_mem _ hy)
    have h0 : ¬ e ≤ agg + r.Duration := by
      simp only [List.map_cons, List.sum_cons] at hlt
      push_neg
      linarith
    simp only [findActive, if_neg h0]
    apply ih (agg + r.Duration) (fun x hx => hd x (List.mem_cons_of_mem _ hx))
    simp only [List.map_cons, List.sum_cons] at hlt
    linarith

theorem findActive_at_boundary (e : ℤ) :
    ∀ (rates : List RateDescriptor) (agg : ℤ) (i : ℕ) (hi : i < rates.length),
      (∀ j, j < i → agg + ((rates.take (j + 1)).map RateDescriptor.Duration).sum < e) →
      e ≤ agg + ((rates.take (i + 1)).map RateDescriptor.Duration).sum →
      findActive e rates agg = some (rates.get ⟨i, hi⟩) := by
  intro rates
  induction rates with
  | nil => intro agg i hi; simp at hi
  | cons r rs ih =>
    intro agg i hi hlt hle
    cases i with
    | zero =>
      simp only [List.take_succ_cons, List.take_zero, List.map_cons, List.map_nil,
        List.sum_cons, List.sum_nil, add_zero] at hle
      simp [findActive, hle]
    | succ k =>
      have h0 : agg + r.Duration < e := by
        have := hlt 0 (Nat.succ_pos k)
        simpa using this
      simp only [findActive, if_neg (not_le.mpr h0), List.get_cons_succ]
      apply ih (agg + r.Duration) k (Nat.lt_of_succ_lt_succ hi)
      · intro j hj
        have := hlt (j + 1) (Nat.succ_lt_succ hj)
        simpa [List.take_succ_cons, add_assoc] using this
      · simpa [List.take_succ_cons, add_assoc] using hle

theorem activeRateOf_ne_none (rates : List RateDescriptor) (e : ℤ) (hne : rates ≠ []) :
    activeRateOf rates e ≠ none := by
  unfold activeRateOf
  by_cases hz : (findActive e rates second).getD zeroRate = zeroRate
  · simp [hz, List.getLast?_eq_getLast _ hne]
  · simp [hz]

/-! ## Claim theorems -/

/-- C1 (counterexample): for the schedule `[{10 req/s, 10s}, {20 req/s,
5s}]` the code's `hits` gives `200` at 12s where the claim demands `140`
(and `200` at 20s where the claim demands `300`): the active segment's
hits are accrued in full on entry, never partially. -/
theorem step_cumulative_hits_claim_counterexample :
    examplePacer.hits (12 * second) = 200 ∧ (200 : ℚ) ≠ 140 ∧
      examplePacer.hits (20 * second) = 200 ∧ (200 : ℚ) ≠ 300 := by
  refine ⟨?_, by norm_num, ?_, by norm_num⟩ <;>
    norm_num [StepFunctionPacer.hits, examplePacer, hitsFrom, seconds, second]

/-- C1 (amended): `cumulativeHits(t)` is the sum of `rate_i * duration_i`
over every segment up to and including the currently active one — the
segment's full quota is added the moment the segment is entered, with no
partial-progress term — where the active segment is the first whose
aggregate boundary (offset by one second) reaches `t`, or the final
segment's boundary otherwise.  For the schedule `[{10 req/s, 10s},
{20 req/s, 5s}]`: `cumulativeHits(10s) = 100`, `cumulativeHits(12s) =
200`, `cumulativeHits(15s) = 200`, and `cumulativeHits(20s) = 200` (no
accrual continues past the schedule's end). -/
theorem step_cumulative_hits_full_segments :
    (∀ (p : StepFunctionPacer) (t : ℤ),
        p.hits t =
          ((p.Attack.Rates.take (cutAt t p.Attack.Rates second)).map segHits).sum) ∧
      examplePacer.hits (10 * second) = 100 ∧
      examplePacer.hits (12 * second) = 200 ∧
      examplePacer.hits (15 * second) = 200 ∧
      examplePacer.hits (20 * second) = 200 := by
  refine ⟨fun p t => hitsFrom_eq_sum_take t p.Attack.Rates second, ?_, ?_, ?_, ?_⟩ <;>
    norm_num [StepFunctionPacer.hits, examplePacer, hitsFrom, seconds, second]

/-- C9 (counterexample): a schedule with one 10-second segment has
`Duration() = 11s`, not the `10s` sum of its segments' durations —
the accumulator starts at `time.Second`, not zero. -/
theorem attack_duration_claim_counterexample :
    AttackDescriptor.Duration ⟨"one", [⟨10, 10 * second⟩]⟩ = 11 * second ∧
      (((⟨"one", [⟨10, 10 * second⟩]⟩ : AttackDescriptor).Rates.map
          RateDescriptor.Duration).sum = 10 * second) ∧
      (11 * second : ℤ) ≠ 10 * second := by
  refine ⟨by decide, by decide, by decide⟩

/-- C9 (amended): for every attack schedule with at least one segment,
the value the `Duration` method returns equals one second plus the sum of
its segments' durations. -/
theorem attack_duration_eq_second_add_sum (attack : AttackDescriptor)
    (hne : attack.Rates ≠ []) :
    attack.Duration = second + (attack.Rates.map RateDescriptor.Duration).sum :=
  foldl_add_duration attack.Rates second

/-- C9 (witness): the amended statement holds at the two-segment example
schedule, whose `Duration()` is 16 seconds. -/
theorem attack_duration_eq_second_add_sum_witness :
    examplePacer.Attack.Rates ≠ [] ∧
      examplePacer.Attack.Duration =
        second + (examplePacer.Attack.Rates.map RateDescriptor.Duration).sum :=
  ⟨by decide, attack_duration_eq_second_add_sum examplePacer.Attack (by decide)⟩

/-- C4 (code_bug): a zero-rate active segment is not handled as a
wait-until-segment-boundary policy; `Pace` reaches the spacing computation
`1 / hitsPerNs(activeRate)` with `hitsPerNs = 0` and divides by zero (in
Go: the IEEE float division `1/0.0 = +Inf`, whose later conversion to
`time.Duration` is implementation-specific — not a wait that lasts until
the segment boundary).  Evaluated here on the schedule `[{0 req/s, 5s}]`
at `elapsed = 2s`, `hitsSent = 0`. -/
theorem pace_zero_rate_reaches_division_by_zero :
    pausePacer.pace (2 * second) 0 = .divByZero := by
  norm_num [StepFunctionPacer.pace, StepFunctionPacer.hits, hitsFrom, activeRateOf,
    findActive, zeroRate, goUint64, goTrunc, goRound, hitsPerNs, seconds, second, pausePacer]

/-- C7 (code_bug): parsing `"5s@10,bad"` does not raise a `ParseError`;
the token `bad` contains no `@`, so `components[1]` is an index
out of range and the program panics.  Moreover a negative rate such as
`"5s@-10"` is not rejected: `strconv.Atoi` accepts it and `uint(rate)`
wraps it to `2^64 - 10`. -/
theorem parse_pacing_claim_divergence :
    parsePacingStr "5s@10,bad" = .panicIndex ∧
      parsePacingStr "5s@-10" = .ok [⟨18446744073709551606, 5 * second⟩] := by
  refine ⟨by decide, by decide⟩

/-- C2 (counterexample): on the schedule `[{1 req/s, 0.5s}]` at
`elapsed = 0` with `hitsSent = 0` the attack is behind schedule in the
claim's sense (`hitsSent = 0 < 0.5 = expectedHits`), yet `Pace` returns a
half-second wait, not `0`: the comparison `hits < uint64(expectedHits)`
truncates `expectedHits` to `0` first. -/
theorem pace_catch_up_claim_counterexample :
    ((0 : ℚ) < halfHitPacer.hits 0) ∧
      halfHitPacer.pace 0 0 = .ok 500000000 false ∧
      PaceResult.ok 500000000 false ≠ .ok 0 false := by
  refine ⟨?_, ?_, by decide⟩ <;>
    norm_num [StepFunctionPacer.pace, StepFunctionPacer.hits, hitsFrom, activeRateOf,
      findActive, zeroRate, goUint64, goTrunc, goRound, hitsPerNs, seconds, second,
      halfHitPacer]

/-- C2 (amended): for every call `Pace(elapsed, hitsSent)` of a step
pacer with a non-empty rate list in which
`hitsSent < uint64(expectedHits)` — the truncation of
`expectedHits = cumulativeHits(elapsed)` to an integer — `Pace` returns
`wait = 0` and `stop = false`. -/
theorem pace_catch_up (p : StepFunctionPacer) (elapsed : ℤ) (hitsSent : ℕ)
    (hne : p.Attack.Rates ≠ [])
    (hbehind : hitsSent < goUint64 (p.hits elapsed)) :
    p.pace elapsed hitsSent = .ok 0 false := by
  rcases hsel : activeRateOf p.Attack.Rates elapsed with _ | r
  · exact absurd hsel (activeRateOf_ne_none _ _ hne)
  · simp [StepFunctionPacer.pace, hsel, hbehind]

/-- C2 (witness): at `elapsed = 2s` on the example schedule the expected
count is already 100, so a pacer that has sent no hit fires immediately. -/
theorem pace_catch_up_witness :
    examplePacer.Attack.Rates ≠ [] ∧
      0 < goUint64 (examplePacer.hits (2 * second)) ∧
      examplePacer.pace (2 * second) 0 = .ok 0 false :=
  ⟨by decide,
   by norm_num [StepFunctionPacer.hits, hitsFrom, goUint64, goTrunc, seconds, second,
        examplePacer],
   pace_catch_up examplePacer (2 * second) 0 (by decide)
     (by norm_num [StepFunctionPacer.hits, hitsFrom, goUint64, goTrunc, seconds, second,
        examplePacer])⟩

/-- C3 (counterexample): on the schedule `[{3 req/s, 0.5s}]` with
`hitsSent = 1` at `elapsed = 0`, the spacing is
`round(1e9/3) = 333333333` and `hitsToWait = 0.5`; the product
`166666666.5` is truncated by the `time.Duration` conversion to
`166666666`, while the claim's `wait = round(spacing * hitsToWait)` would
give `166666667`. -/
theorem pace_steady_state_claim_counterexample :
    thirdPacer.pace 0 1 = .ok 166666666 false ∧
      goRound ((goRound (1 / hitsPerNs ⟨3, 500000000⟩) : ℚ) *
        ((1 : ℚ) + 1 - thirdPacer.hits 0)) = 166666667 ∧
      (166666666 : ℤ) ≠ 166666667 := by
  refine ⟨?_, ?_, by decide⟩ <;>
    norm_num [StepFunctionPacer.pace, StepFunctionPacer.hits, hitsFrom, activeRateOf,
      findActive, zeroRate, goUint64, goTrunc, goRound, hitsPerNs, seconds, second,
      thirdPacer]

/-- C3 (amended): whenever `hitsSent ≥ uint64(expectedHits)` and the
active segment's rate is non-zero, `Pace` returns
`wait = trunc(spacing * hitsToWait)` and `stop = false`, where
`spacing = round(1 / rate)` in nanoseconds per hit and
`hitsToWait = (hitsSent + 1) - expectedHits` (positive given the branch
condition); the final conversion truncates toward zero rather than
rounding, and the returned wait is ≥ 0, never negative. -/
theorem pace_steady_state (p : StepFunctionPacer) (elapsed : ℤ) (hitsSent : ℕ)
    (r : RateDescriptor)
    (hsel : activeRateOf p.Attack.Rates elapsed = some r)
    (hrate : r.Rate ≠ 0)
    (hcaught : goUint64 (p.hits elapsed) ≤ hitsSent) :
    p.pace elapsed hitsSent =
        .ok (goTrunc ((goRound (1 / hitsPerNs r) : ℚ) *
          ((hitsSent : ℚ) + 1 - p.hits elapsed))) false ∧
      0 ≤ goTrunc ((goRound (1 / hitsPerNs r) : ℚ) *
          ((hitsSent : ℚ) + 1 - p.hits elapsed)) := by
  have hnotlt : ¬ hitsSent < goUint64 (p.hits elapsed) := not_lt.mpr hcaught
  have hwait : p.hits elapsed < (hitsSent : ℚ) + 1 := by
    by_cases hpos : 0 ≤ p.hits elapsed
    · have hfl : (0 : ℤ) ≤ ⌊p.hits elapsed⌋ := Int.floor_nonneg.mpr hpos
      have h1 : (goUint64 (p.hits elapsed) : ℤ) = ⌊p.hits elapsed⌋ := by
        simp [goUint64, goTrunc, if_pos hpos, Int.toNat_of_nonneg hfl]
      have h2 : (⌊p.hits elapsed⌋ : ℚ) ≤ (hitsSent : ℚ) := by
        have : (goUint64 (p.hits elapsed) : ℤ) ≤ (hitsSent : ℤ) := by exact_mod_cast hcaught
        rw [h1] at this
        exact_mod_cast this
      have h3 := Int.lt_floor_add_one (p.hits elapsed)
      linarith
    · push_neg at hpos
      have : (0 : ℚ) ≤ (hitsSent : ℚ) := Nat.cast_nonneg _
      linarith
  have hq : (0 : ℚ) ≤ 1 / hitsPerNs r := by
    have : (0 : ℚ) ≤ hitsPerNs r := by
      unfold hitsPerNs second
      positivity
    positivity
  have hround : (0 : ℤ) ≤ goRound (1 / hitsPerNs r) := by
    rw [goRound, if_pos hq]
    have : (0 : ℚ) ≤ 1 / hitsPerNs r + 1 / 2 := by linarith
    exact Int.floor_nonneg.mpr (by linarith)
  have hprod : (0 : ℚ) ≤ (goRound (1 / hitsPerNs r) : ℚ) *
      ((hitsSent : ℚ) + 1 - p.hits elapsed) := by
    apply mul_nonneg
    · exact_mod_cast hround
    · linarith
  refine ⟨?_, ?_⟩
  · simp [StepFunctionPacer.pace, hsel, hnotlt, hrate]
  · rw [goTrunc, if_pos hprod]
    exact Int.floor_nonneg.mpr hprod

/-- C3 (witness): the amended statement evaluated on the schedule
`[{3 req/s, 0.5s}]` with `hitsSent = 1` at `elapsed = 0`. -/
theorem pace_steady_state_witness :
    activeRateOf thirdPacer.Attack.Rates 0 = some ⟨3, 500000000⟩ ∧
      (⟨3, 500000000⟩ : RateDescriptor).Rate ≠ 0 ∧
      goUint64 (thirdPacer.hits 0) ≤ 1 ∧
      (thirdPacer.pace 0 1 =
          .ok (goTrunc ((goRound (1 / hitsPerNs ⟨3, 500000000⟩) : ℚ) *
            (((1 : ℕ) : ℚ) + 1 - thirdPacer.hits 0))) false ∧
        0 ≤ goTrunc ((goRound (1 / hitsPerNs ⟨3, 500000000⟩) : ℚ) *
            (((1 : ℕ) : ℚ) + 1 - thirdPacer.hits 0))) :=
  ⟨by norm_num [activeRateOf, findActive, zeroRate, second, thirdPacer],
   by decide,
   by norm_num [StepFunctionPacer.hits, hitsFrom, goUint64, goTrunc, seconds, second,
      thirdPacer],
   pace_steady_state thirdPacer 0 1 ⟨3, 500000000⟩
     (by norm_num [activeRateOf, findActive, zeroRate, second, thirdPacer])
     (by decide)
     (by norm_num [StepFunctionPacer.hits, hitsFrom, goUint64, goTrunc, seconds, second,
        thirdPacer])⟩

/-- C5 (counterexample): on the schedule `[{10 req/s, 10s}, {20 req/s,
5s}]`, at `elapsed` exactly the boundary that ends the first segment
(11s, boundaries being offset one second), the selected active rate is
the first segment (`10 req/s`), not the next one (`20 req/s`): the loop
condition `elapsed <= aggregateDuration` keeps the segment that just
ended. -/
theorem segment_boundary_claim_counterexample :
    boundary examplePacer.Attack.Rates 1 = 11 * second ∧
      activeRateOf examplePacer.Attack.Rates (11 * second) = some ⟨10, 10 * second⟩ ∧
      some (⟨10, 10 * second⟩ : RateDescriptor) ≠ some ⟨20, 5 * second⟩ := by
  refine ⟨by decide, ?_, by decide⟩
  norm_num [activeRateOf, findActive, zeroRate, second, examplePacer]

/-- C5 (amended): at an elapsed time exactly equal to a segment's
closing boundary, the active segment selected is the segment that just
ended, not the next one: each segment occupies the half-open-on-the-left
interval `(start, start + duration]` (all boundaries offset by the
one-second initial aggregate).  The hypotheses require the earlier
boundaries to lie strictly below this one (no zero-duration predecessor
shares it) and the segment to differ from the zero descriptor (which
would trigger the last-rate fallback). -/
theorem active_rate_at_segment_boundary (rates : List RateDescriptor) (i : ℕ)
    (r : RateDescriptor)
    (hget : rates[i]? = some r)
    (hz : r ≠ zeroRate)
    (hmono : ∀ j, j < i → boundary rates (j + 1) < boundary rates (i + 1)) :
    activeRateOf rates (boundary rates (i + 1)) = some r := by
  have hi : i < rates.length := by
    by_contra hout
    rw [List.getElem?_eq_none (le_of_not_lt hout)] at hget
    exact Option.noConfusion hget
  have hgetr : rates.get ⟨i, hi⟩ = r := by
    have := List.getElem?_eq_getElem hi
    rw [hget] at this
    exact (Option.some.inj this).symm
  have hfind : findActive (boundary rates (i + 1)) rates second = some (rates.get ⟨i, hi⟩) := by
    apply findActive_at_boundary
    · intro j hj
      have := hmono j hj
      simpa [boundary] using this
    · simp [boundary]
  rw [hgetr] at hfind
  simp [activeRateOf, hfind, hz]

/-- C5 (witness): the amended statement at the second segment of the
example schedule: its closing boundary is 16s, and at `elapsed = 16s` it
is itself selected. -/
theorem active_rate_at_segment_boundary_witness :
    examplePacer.Attack.Rates[1]? = some ⟨20, 5 * second⟩ ∧
      (⟨20, 5 * second⟩ : RateDescriptor) ≠ zeroRate ∧
      (∀ j, j < 1 → boundary examplePacer.Attack.Rates (j + 1) <
        boundary examplePacer.Attack.Rates 2) ∧
      activeRateOf examplePacer.Attack.Rates (boundary examplePacer.Attack.Rates 2) =
        some ⟨20, 5 * second⟩ :=
  ⟨by decide, by decide,
   fun j hj => by interval_cases j <;> decide,
   active_rate_at_segment_boundary examplePacer.Attack.Rates 1 ⟨20, 5 * second⟩
     (by decide) (by decide) (fun j hj => by interval_cases j <;> decide)⟩

/-- C6 (confirmed): for every elapsed time strictly past the schedule's
total duration (the `Duration()` value that bounds the attack loop), and
a schedule with at least one segment (all of non-negative duration), the
selection loop finds no segment and the fallback selects the last one:
the instantaneous rate past the schedule's end is the last segment's
rate, extended indefinitely, rather than a stop or an error. -/
theorem active_rate_past_schedule_end (p : StepFunctionPacer) (e : ℤ)
    (hne : p.Attack.Rates ≠ [])
    (hd : ∀ r ∈ p.Attack.Rates, 0 ≤ r.Duration)
    (hpast : p.Attack.Duration < e) :
    activeRateOf p.Attack.Rates e = p.Attack.Rates.getLast? ∧
      (p.Attack.Rates.getLast?).isSome = true := by
  have hsum : p.Attack.Duration =
      second + (p.Attack.Rates.map RateDescriptor.Duration).sum :=
    foldl_add_duration p.Attack.Rates second
  have hfind : findActive e p.Attack.Rates second = none := by
    apply findActive_eq_none e p.Attack.Rates second hd
    rw [← hsum]
    exact hpast
  constructor
  · simp [activeRateOf, hfind]
  · rw [List.getLast?_eq_getLast _ hne]
    rfl

/-- C6 (witness): the example schedule's `Duration()` is 16s; at
`elapsed = 17s` the fallback selects the last segment `{20 req/s, 5s}`. -/
theorem active_rate_past_schedule_end_witness :
    examplePacer.Attack.Rates ≠ [] ∧
      (∀ r ∈ examplePacer.Attack.Rates, 0 ≤ r.Duration) ∧
      examplePacer.Attack.Duration < 17 * second ∧
      (activeRateOf examplePacer.Attack.Rates (17 * second) =
          examplePacer.Attack.Rates.getLast? ∧
        (examplePacer.Attack.Rates.getLast?).isSome = true) :=
  ⟨by decide, by decide, by decide,
   active_rate_past_schedule_end examplePacer (17 * second) (by decide) (by decide)
     (by decide)⟩

/-- C10 (confirmed): with at least one segment every index access in
`Pace` is in bounds, and on an empty rate list the fallback lookup
`Rates[len(Rates)-1]` is out of range (the loop finds nothing, the
zero-value comparison triggers the fallback, and the index panics). -/
theorem pace_index_safety (p : StepFunctionPacer) (elapsed : ℤ) (hitsSent : ℕ) :
    (p.Attack.Rates ≠ [] → p.pace elapsed hitsSent ≠ .indexOutOfRange) ∧
      (p.Attack.Rates = [] → p.pace elapsed hitsSent = .indexOutOfRange) := by
  constructor
  · intro hne
    rcases hsel : activeRateOf p.Attack.Rates elapsed with _ | r
    · exact absurd hsel (activeRateOf_ne_none _ _ hne)
    · simp only [StepFunctionPacer.pace, hsel]
      split_ifs <;> simp
  · intro hemp
    simp [StepFunctionPacer.pace, activeRateOf, findActive, hemp]

/-- C10 (witness): the example pacer never reaches the out-of-range
index; the empty pacer does. -/
theorem pace_index_safety_witness :
    examplePacer.pace 0 0 ≠ .indexOutOfRange ∧
      emptyPacer.pace 0 0 = .indexOutOfRange :=
  ⟨(pace_index_safety examplePacer 0 0).1 (by decide),
   (pace_index_safety emptyPacer 0 0).2 rfl⟩

/-- C8 (confirmed): the sine configuration check `invalid`, applied to
the pacer `main` builds (both `Mean` and `Amp` with `Per = time.Second`),
rejects exactly the configurations with `period ≤ 0`, `mean ≤ 0` or
`amplitude ≥ mean`; in particular period 0, mean 0, and mean 10 with
amplitude 10 are each rejected, while mean 15, amplitude 5, period 10m
is accepted. -/
theorem sine_config_validation :
    (∀ (period mean amplitude : ℤ) (startAt : ℚ),
        Sine.invalid (Sine.mkSinePacer period mean amplitude startAt) = true ↔
          (period ≤ 0 ∨ mean ≤ 0 ∨ mean ≤ amplitude)) ∧
      Sine.invalid (Sine.mkSinePacer 0 2 1 0) = true ∧
      Sine.invalid (Sine.mkSinePacer (10 * 60 * second) 0 1 0) = true ∧
      Sine.invalid (Sine.mkSinePacer (10 * 60 * second) 10 10 0) = true ∧
      Sine.invalid (Sine.mkSinePacer (10 * 60 * second) 15 5 0) = false := by
  have h9 : (0 : ℚ) < ((second : ℤ) : ℚ) := by norm_num [second]
  have hdiv1 : ∀ m : ℤ, ((m : ℚ) / ((second : ℤ) : ℚ) ≤ 0) ↔ m ≤ 0 := by
    intro m
    rw [div_nonpos_iff]
    constructor
    · rintro (⟨h1, h2⟩ | ⟨h1, h2⟩)
      · exact absurd h2 (not_le.mpr h9)
      · exact_mod_cast h1
    · intro h
      exact Or.inr ⟨by exact_mod_cast h, le_of_lt h9⟩
  have hdiv2 : ∀ m a : ℤ,
      ((m : ℚ) / ((second : ℤ) : ℚ) ≤ (a : ℚ) / ((second : ℤ) : ℚ)) ↔ m ≤ a := by
    intro m a
    rw [div_le_div_iff_of_pos_right h9]
    exact Int.cast_le
  have key : ∀ (period mean amplitude : ℤ) (startAt : ℚ),
      Sine.invalid (Sine.mkSinePacer period mean amplitude startAt) = true ↔
        (period ≤ 0 ∨ mean ≤ 0 ∨ mean ≤ amplitude) := by
    intro period mean amplitude startAt
    simp only [Sine.invalid, Sine.mkSinePacer, Sine.hitsPerNs, Bool.or_eq_true,
      decide_eq_true_eq, ge_iff_le, hdiv1 mean, hdiv2 mean amplitude]
    exact or_assoc
  refine ⟨key, ?_, ?_, ?_, ?_⟩
  · exact (key 0 2 1 0).mpr (Or.inl le_rfl)
  · exact (key _ 0 1 0).mpr (Or.inr (Or.inl le_rfl))
  · exact (key _ 10 10 0).mpr (Or.inr (Or.inr le_rfl))
  · rw [Bool.eq_false_iff]
    intro hc
    rcases (key _ 15 5 0).mp hc with h | h | h
    · norm_num [second] at h
    · norm_num at h
    · norm_num at h

end VegetaSine
